import Mathlib

/-
Verification development for the django-json-api repository.

The Python source under verification lives in django_json_api/models.py,
django_json_api/manager.py and django_json_api/django.py.  The files
django_json_api/fields.py, base.py and client.py are not part of the
sources; where their behaviour matters it is modelled from the spec
(each such definition carries a doc comment saying so).

Conventions of the shallow embedding:
- wire resource ids are numeric-coercible strings; they are modelled as Nat,
  so Python's int(...) coercions become the identity;
- Python dicts whose only observed operations are key lookup and merge are
  modelled as association lists with first-match lookup;
- Python sets are modelled as lists built by membership-guarded insertion,
  and set-valued statements are phrased via list membership;
- exceptions are modelled with Option / Except return types.
-/

set_option autoImplicit false

namespace DJA

/-- Relationship identifier: a (type, id) pair on the wire.  Wire ids are
numeric-coercible strings, modelled as Nat. -/
structure Identifier where
  rtype : String
  rid : Nat
  deriving DecidableEq, Repr

/-- Value of a relationship slot: a single identifier for a to-one
relationship, or a list of identifiers for a to-many relationship. -/
inductive RelValue where
  | one (i : Identifier)
  | many (l : List Identifier)
  deriving DecidableEq, Repr

/-- A JSON value as far as this layer observes it: either a scalar attribute
payload (modelled as String) or relationship identifier data. -/
inductive JVal where
  | s (v : String)
  | r (v : RelValue)
  deriving DecidableEq, Repr

/-- Kind of a declared field: plain attribute, or relationship with its
to-many flag.  Modelled from the spec: fields.py is not under the sources;
the spec's field adapter exposes (related_type, is_to_many) per declared
relationship. -/
inductive FieldKind where
  | attr
  | relationship (many : Bool)
  deriving DecidableEq, Repr

/-- One declared field of a record type (`cls._meta.fields` entry). -/
structure FieldDecl where
  name : String
  kind : FieldKind
  deriving DecidableEq, Repr

/-- Static per-type metadata (`cls._meta`).  `cacheExpiration = none` models
the attribute being absent (so `getattr` defaults apply); `some none` models
an explicit Python `None`; `some (some n)` an integer value. -/
structure ModelCls where
  resourceType : String
  fields : List FieldDecl
  cacheExpiration : Option (Option Int) := none
  pageSize : Option Nat := none
  deriving DecidableEq, Repr

/-- The registry of declared record classes (`JSONAPIModel.__subclasses__()`). -/
abbrev Registry := List ModelCls

/-- Runtime lookup of a record class by resource type
(`_find_model_class` in models.py). -/
def find_model_class (reg : Registry) (resourceType : String) : Option ModelCls :=
  reg.find? (fun cls => cls.resourceType == resourceType)

/-- An in-memory record.  `cls` tags the concrete record class by its
resource type; `slots` holds the per-field values set on the instance, one
entry per field name.  Modelled from the spec: the descriptor layer
(fields.py, absent from the sources) stores a cleaned attribute value or the
relationship identifier(s) under the field's name; Python's
`hasattr(record, f"name_identifiers")` corresponds to the slot at `name`
holding `JVal.r (.many _)`, and `name_identifier` to `JVal.r (.one _)`.
The derived write-only `_<name>_cache` convenience slots (resolved related
records) are not represented; no verified claim reads them. -/
structure Record where
  cls : String
  pk : Option Nat
  slots : List (String × JVal)
  deriving DecidableEq, Repr

/-- First-match association list lookup (Python dict / attribute lookup). -/
def alookup {β : Type} (l : List (String × β)) (k : String) : Option β :=
  (l.find? (fun p => p.1 == k)).map (fun p => p.2)

/-- Nat-keyed association list lookup. -/
def nlookup {β : Type} (l : List (Nat × β)) (k : Nat) : Option β :=
  (l.find? (fun p => p.1 == k)).map (fun p => p.2)

/-- A resource document entry from the wire: `type`, `id`, `attributes`,
`relationships`.  A relationship entry maps the name to `some v` when the
payload carries a `"data"` key with identifier data `v`, and to `none` when
the `"data"` key is missing. -/
structure Resource where
  rtype : String
  rid : Nat
  attributes : List (String × String)
  relationships : List (String × Option RelValue)
  deriving DecidableEq, Repr

/-- Lookup in the merged document data
`{**attributes, **{name: rel["data"] for rel in relationships if "data" in rel}}`
(the dict built at the top of `_merge_resource_with_existing_cache`):
a relationship entry with a `"data"` key shadows an attribute of the same
name; a relationship entry without `"data"` contributes nothing. -/
def resource_data_lookup (r : Resource) (name : String) : Option JVal :=
  match alookup r.relationships name with
  | some (some rv) => some (JVal.r rv)
  | _ => (alookup r.attributes name).map JVal.s

/-- Field cleaning.  Modelled from the spec: fields.py is not under the
sources; the spec requires cleaning to validate/convert the payload to the
field's semantic type and to fail with a validation error when conversion is
impossible.  On well-typed payloads it is the identity (observed behaviour:
a cleaned relationship slot equals the wire identifier dict). -/
def field_clean (kind : FieldKind) (v : JVal) : Option JVal :=
  match kind, v with
  | FieldKind.attr, JVal.s a => some (JVal.s a)
  | FieldKind.relationship false, JVal.r (RelValue.one i) => some (JVal.r (RelValue.one i))
  | FieldKind.relationship true, JVal.r (RelValue.many l) => some (JVal.r (RelValue.many l))
  | _, _ => none

/-- The `except KeyError` branch of `_merge_resource_with_existing_cache`
(models.py lines 246-250): with an existing cached record carrying a
relationship identifier slot for the field, prepend that value to the
kwargs; otherwise leave the field unset.  This step never fails. -/
def carry_forward (existing : Option Record) (nm : String) (tail : List (String × JVal)) :
    Option (List (String × JVal)) :=
  match existing with
  | some e =>
    match alookup e.slots nm with
    | some (JVal.r rv) => some ((nm, JVal.r rv) :: tail)
    | _ => some tail
  | none => some tail

/-- Constructor-argument assembly of `_merge_resource_with_existing_cache`
(models.py lines 234-250): for each declared field, clean the document value
when the name is present in the merged data (a failing clean propagates as a
validation error, hence `none`); when the name is absent (`KeyError`), carry
forward the existing cached record's relationship identifier slot when it
has one, else leave the field unset. -/
def build_kwargs (fields : List FieldDecl) (r : Resource) (existing : Option Record) :
    Option (List (String × JVal)) :=
  match fields with
  | [] => some []
  | f :: rest =>
    match build_kwargs rest r existing with
    | none => none
    | some tail =>
      match resource_data_lookup r f.name with
      | some v =>
        match field_clean f.kind v with
        | some cv => some ((f.name, cv) :: tail)
        | none => none
      | none => carry_forward existing f.name tail

/-- Merge of a resource document with an optional previously cached record
(`_merge_resource_with_existing_cache`, models.py lines 230-252).  The
resulting record is `cls(id=resource_dict["id"], **kwargs)`. -/
def merge_resource_with_existing_cache (cls : ModelCls) (r : Resource)
    (existing : Option Record) : Option Record :=
  (build_kwargs cls.fields r existing).map
    (fun kwargs => { cls := cls.resourceType, pk := some r.rid, slots := kwargs })

/-- String form of a primary key as Python's f-string renders it
(`None` for an absent pk). -/
def pk_str (pk : Option Nat) : String :=
  match pk with
  | none => "None"
  | some n => toString n

/-- Cache key `jsonapi:<resource_type>[:<version>]:<pk>` (models.py
`cache_key`).  `version` models the DJANGO_JSON_API_CACHE_KEY_VERSION
setting; a falsy value (absent or empty) leaves the key unversioned. -/
def cache_key (version : Option String) (resourceType : String) (pk : String) : String :=
  match version with
  | some v =>
    if v = "" then "jsonapi:" ++ resourceType ++ ":" ++ pk
    else "jsonapi:" ++ resourceType ++ ":" ++ v ++ ":" ++ pk
  | none => "jsonapi:" ++ resourceType ++ ":" ++ pk

/-- Process-wide record cache contents, keyed by cache key.  First-match
lookup; newly written entries are prepended and shadow older ones. -/
abbrev Cache := List (String × Record)

/-- Cache read: `cache.get(key)` / one entry of `cache.get_many`. -/
def cache_get (c : Cache) (k : String) : Option Record :=
  alookup c k

/-- One operation issued against the cache backend.  Recording these makes
"no cache read / no cache write is performed" a provable statement. -/
inductive CacheOp where
  | getMany (keys : List String)
  | setMany (entries : List (String × Record)) (timeout : Option Int)
  deriving DecidableEq, Repr

/-- Bulk cache read `_get_many_from_cache` (models.py lines 221-228):
when the type's `cache_expiration` is 0 it returns an empty mapping without
consulting the backend; otherwise it issues one `get_many` for the keys of
all requested ids and keys the found records by their id (a cached record
without a pk, which cannot arise from this pipeline, is dropped from the
mapping).  Returns the mapping together with the backend operations
performed. -/
def get_many_from_cache (cls : ModelCls) (version : Option String) (c : Cache)
    (recordIds : List Nat) : List (Nat × Record) × List CacheOp :=
  let cacheExpiration := cls.cacheExpiration.getD none
  if cacheExpiration == some 0 then ([], [])
  else
    let cacheKeys := recordIds.map (fun pk => cache_key version cls.resourceType (toString pk))
    let found := cacheKeys.filterMap (fun k => cache_get c k)
    (found.filterMap (fun rec => rec.pk.map (fun p => (p, rec))), [CacheOp.getMany cacheKeys])

/-- Bulk cache write `cache_many` (models.py lines 182-190): writes all
instances in one `set_many` when the type's `cache_expiration` is None or
positive (default 24h when the attribute is absent), and stores nothing
otherwise.  Returns the backend operations performed. -/
def cache_many (cls : ModelCls) (version : Option String) (instances : List Record) :
    List CacheOp :=
  let cacheExpiration := cls.cacheExpiration.getD (some 86400)
  if cacheExpiration == none || (match cacheExpiration with
      | some n => decide (0 < n)
      | none => false) then
    [CacheOp.setMany
      (instances.map (fun inst =>
        (cache_key version cls.resourceType (pk_str inst.pk), inst)))
      cacheExpiration]
  else []

/-- Application of backend operations to the cache contents: `set_many`
prepends its entries (new entries shadow old ones), `get_many` leaves the
contents unchanged. -/
def apply_cache_ops (c : Cache) (ops : List CacheOp) : Cache :=
  ops.foldl
    (fun acc op =>
      match op with
      | CacheOp.getMany _ => acc
      | CacheOp.setMany entries _ => entries ++ acc)
    c

/-- The patch request `save` hands to the client on the success path. -/
structure PatchCall where
  resource_type : String
  resource_id : Nat
  attributes : List (String × JVal)
  deriving DecidableEq, Repr

/-- Partial update `save(update_fields)` (models.py lines 197-219).  The
`Except` result makes "before any network call" structural: an `error`
result is raised before `client.patch` is reached, and the single `ok`
constructor carries the one patch request issued.  A declared but unset
field in `update_fields` surfaces Python's AttributeError from
`getattr(self, field)`.  `JSONAPIMeta.resource_name` is modelled as the
type's resource type: base.py is not under the sources, and the tests
observe the patch being issued with the Meta resource type. -/
def save (cls : ModelCls) (rec : Record) (update_fields : Option (List String)) :
    Except String PatchCall :=
  match rec.pk with
  | none => Except.error "Record creation not supported"
  | some pk =>
    match update_fields with
    | none => Except.error "Argument update_fields needed to update record"
    | some fs =>
      let fieldNames := cls.fields.map (fun f => f.name)
      let nonAllowed := fs.filter (fun f => !(fieldNames.contains f))
      if nonAllowed.isEmpty then
        match fs.mapM (fun f => (alookup rec.slots f).map (fun v => (f, v))) with
        | some updateData => Except.ok { resource_type := cls.resourceType, resource_id := pk, attributes := updateData }
        | none => Except.error "AttributeError"
      else Except.error "Fields not present on resource"

/-- Response document observed by `count` (manager.py lines 185-193): an
optional top-level `meta` mapping with integer values. -/
structure CountDocument where
  meta : Option (List (String × Int))
  deriving DecidableEq, Repr

/-- Result extraction of `count`:
`data.get("meta", {}).get("record_count")` — `none` models Python's `None`
both when `meta` is absent and when `record_count` is missing from it. -/
def count_record_count (doc : CountDocument) : Option Int :=
  match doc.meta with
  | none => none
  | some m => alookup m "record_count"

/-- A record as a Python object: the record value together with an object
identity token.  Two `PyRecord`s denote the same Python object exactly when
they are equal (in particular `objId` determines the object, so `self is
other` is `objId` equality). -/
structure PyRecord where
  objId : Nat
  record : Record
  deriving DecidableEq, Repr

/-- Record equality `JSONAPIModel.__eq__` (models.py lines 38-44): class
mismatch is `False`; with an absent pk the result is `self is other`;
otherwise `int(my_pk) == int(other.pk)`, which raises TypeError (modelled as
`none`) when the other pk is absent. -/
def record_eq (a b : PyRecord) : Option Bool :=
  if a.record.cls ≠ b.record.cls then some false
  else
    match a.record.pk with
    | none => some (a.objId == b.objId)
    | some myPk =>
      match b.record.pk with
      | some otherPk => some (myPk == otherPk)
      | none => none

/-- Character-level worker for Python's `str.split` with a non-empty
separator: split at every non-overlapping occurrence, left to right, keeping
empty chunks.  The fuel argument (at least the input length plus one) makes
the recursion structural so the kernel can evaluate it; `String.splitOn`
from the library is defined by well-founded recursion and does not reduce. -/
def py_split_aux (sep : List Char) : Nat → List Char → List Char → List (List Char)
  | 0, cur, rest => [cur.reverse ++ rest]
  | Nat.succ fuel, cur, rest =>
    if sep.isPrefixOf rest then
      cur.reverse :: py_split_aux sep fuel [] (rest.drop sep.length)
    else
      match rest with
      | [] => [cur.reverse]
      | ch :: rest2 => py_split_aux sep fuel (ch :: cur) rest2

/-- Python's `s.split(sep)` for a non-empty separator (every separator used
in the source is the literal `"__"`). -/
def py_split (s sep : String) : List String :=
  if sep.data = [] then [s]
  else (py_split_aux sep.data (s.data.length + 1) [] s.data).map (fun cs => String.mk cs)

/-- Splitting of one prefetch lookup into its base segment and the remaining
nested path: Python's `base, *nested_path = lookup.split("__", 1)`
(manager.py `get_base_lookup_to_nested_lookups_mapping`). -/
def split_lookup_once (s : String) : String × List String :=
  match py_split s "__" with
  | [] => (s, [])
  | [b] => (b, [])
  | b :: rest => (b, [String.intercalate "__" rest])

/-- Extension of a defaultdict(list)-style association list: a present key
has the values appended, a new key is appended at the end (first-use key
order, as Python dict iteration yields it). -/
def assoc_extend (acc : List (String × List String)) (k : String) (v : List String) :
    List (String × List String) :=
  match acc with
  | [] => [(k, v)]
  | (k', v') :: rest =>
    if k' == k then (k', v' ++ v) :: rest else (k', v') :: assoc_extend rest k v

/-- Grouping of prefetch lookups by their base segment
(`get_base_lookup_to_nested_lookups_mapping`, manager.py lines 14-19). -/
def base_lookup_mapping (lookups : List String) : List (String × List String) :=
  lookups.foldl
    (fun acc lk => assoc_extend acc (split_lookup_once lk).1 (split_lookup_once lk).2) []

/-- Truth of the branch of `_handle_prefetching` that reads a record's
identifier slot for a segment: with a to-many declared field the record
carries the segment when it has either slot shape; with a to-one field only
the single-identifier slot counts (a to-many slot falls into the re-fetch
branch). -/
def carries_segment (many : Bool) (rec : Record) (seg : String) : Bool :=
  match many, alookup rec.slots seg with
  | true, some (JVal.r (RelValue.many _)) => true
  | _, some (JVal.r (RelValue.one _)) => true
  | _, _ => false

/-- Identifier pairs one record contributes to `identifiers_to_fetch` for a
segment (models.py lines 135-149): the whole identifier list for a to-many
slot, the single identifier for a to-one slot, nothing when the record lands
in the re-fetch branch. -/
def py_carried_pairs (many : Bool) (rec : Record) (seg : String) : List (String × Nat) :=
  match many, alookup rec.slots seg with
  | true, some (JVal.r (RelValue.many ids)) => ids.map (fun i => (i.rtype, i.rid))
  | _, some (JVal.r (RelValue.one i)) => [(i.rtype, i.rid)]
  | _, _ => []

/-- Set-style insertion of identifier pairs (`identifiers_to_fetch.update` /
`.add`): already-present pairs are not duplicated. -/
def set_add_pairs (acc : List (String × Nat)) (ps : List (String × Nat)) :
    List (String × Nat) :=
  ps.foldl (fun a p => if p ∈ a then a else a ++ [p]) acc

/-- Union of identifier pairs collected over all records for one segment of
`_handle_prefetching`. -/
def collect_segment_identifiers (many : Bool) (records : List Record) (seg : String) :
    List (String × Nat) :=
  records.foldl (fun acc rec => set_add_pairs acc (py_carried_pairs many rec seg)) []

/-- The pks marked for a whole re-fetch (`to_re_fetch`) for one segment:
records that do not carry the segment's identifier slot. -/
def refetch_pks (many : Bool) (records : List Record) (seg : String) : List (Option Nat) :=
  records.filterMap (fun rec => if carries_segment many rec seg then none else some rec.pk)

/-- One batched related fetch issued by `_handle_prefetching`: the
`model_class.get_many(record_ids=..., prefetch_related=nested)` invocation. -/
structure RelatedFetchCall where
  resourceType : String
  recordIds : List Nat
  nested : List String
  deriving DecidableEq, Repr

/-- Related-fetch calls issued for one base segment of `_handle_prefetching`
(models.py lines 128-160): an undeclared or non-relationship segment is
skipped; an empty collected identifier set yields no call (the resource type
resolves to nothing); an unknown resource type yields no call; otherwise
exactly one `get_many` call is issued with the ids of the collected set. -/
def segment_related_fetch_calls (cls : ModelCls) (reg : Registry) (records : List Record)
    (seg : String) (nested : List String) : List RelatedFetchCall :=
  match cls.fields.find? (fun f => f.name == seg) with
  | some ⟨_, FieldKind.relationship many⟩ =>
    let idents := collect_segment_identifiers many records seg
    match idents with
    | [] => []
    | (t, _) :: _ =>
      match find_model_class reg t with
      | some _ => [{ resourceType := t, recordIds := idents.map (fun p => p.2), nested := nested }]
      | none => []
  | _ => []

/-- All related-fetch calls one invocation of `_handle_prefetching` issues,
one group at a time in base-segment order. -/
def handle_prefetching_calls (cls : ModelCls) (reg : Registry) (records : List Record)
    (prefetchRelated : List String) : List RelatedFetchCall :=
  ((base_lookup_mapping prefetchRelated).map
    (fun g => segment_related_fetch_calls cls reg records g.1 g.2)).flatten

/-- Keys of a list in first-occurrence order (Python dict grouping order). -/
def first_occ_keys : List String → List String
  | [] => []
  | t :: ts => t :: (first_occ_keys ts).filter (fun x => x ≠ t)

/-- Grouping of resource documents by their type, preserving first-occurrence
type order and in-type document order (`from_resources`, models.py lines
63-65). -/
def group_by_type (rs : List Resource) : List (String × List Resource) :=
  (first_occ_keys (rs.map (fun r => r.rtype))).map
    (fun t => (t, rs.filter (fun r => r.rtype == t)))

/-- Option-valued traversal of a list, failing when any element fails. -/
def mapM_option {α β : Type} (f : α → Option β) : List α → Option (List β)
  | [] => some []
  | a :: as =>
    match f a, mapM_option f as with
    | some b, some bs => some (b :: bs)
    | _, _ => none

/-- Per-type batch of `from_resources` (models.py lines 68-81): bulk-read the
existing cache entries, merge every resource with its cached record, then
bulk-write the merged batch.  A merge failure (validation error) propagates. -/
def from_resources_groups (reg : Registry) (version : Option String) :
    List (String × List Resource) → Cache → Option (List Record × Cache)
  | [], c => some ([], c)
  | (t, ms) :: rest, c =>
    match find_model_class reg t with
    | none => from_resources_groups reg version rest c
    | some cls =>
      let cached := (get_many_from_cache cls version c (ms.map (fun r => r.rid))).1
      match mapM_option
          (fun r => merge_resource_with_existing_cache cls r (nlookup cached r.rid)) ms with
      | none => none
      | some batch =>
        let c2 := apply_cache_ops c (cache_many cls version batch)
        match from_resources_groups reg version rest c2 with
        | none => none
        | some (recs, c3) => some (batch ++ recs, c3)

/-- Materialization of a list of resource documents into records
(`JSONAPIModel.from_resources`, models.py lines 61-82): group by type, skip
unknown types, merge each group against the cache and re-cache it; the
result concatenates the batches in type-grouping order. -/
def from_resources (reg : Registry) (version : Option String) (c : Cache)
    (rs : List Resource) : Option (List Record × Cache) :=
  from_resources_groups reg version (group_by_type rs) c

/-- Lookup in the included-records mapping of the manager
(`_group_resources_by_type` + indexing): `mapping[type][str(pk)]`, where a
later record of the same type and pk overwrites an earlier one; a miss is a
KeyError. -/
def included_lookup (included : List Record) (t : String) (idStr : String) : Option Record :=
  (included.filter (fun rec => rec.cls == t && pk_str rec.pk == idStr)).getLast?

/-- Related records one segment resolves from the included mapping across a
record list, in record order (`_set_cache_value_on_records` inner loop,
manager.py lines 155-169): a to-many slot contributes every mapped record, a
to-one slot one record, other records are skipped; any unmapped identifier
is a KeyError (`none`). -/
def collect_related (included : List Record) (records : List Record) (seg : String) :
    Option (List Record) :=
  match records with
  | [] => some []
  | rec :: rest =>
    match alookup rec.slots seg with
    | some (JVal.r (RelValue.many ids)) =>
      match mapM_option (fun i => included_lookup included i.rtype (toString i.rid)) ids with
      | some result => (collect_related included rest seg).map (fun tl => result ++ tl)
      | none => none
    | some (JVal.r (RelValue.one i)) =>
      match included_lookup included i.rtype (toString i.rid) with
      | some result => (collect_related included rest seg).map (fun tl => result :: tl)
      | none => none
    | _ => collect_related included rest seg

mutual

/-- Recursive prefetch-path resolution against the included mapping
(`_set_cache_value_on_records`, manager.py lines 147-174).  The records list
is returned unchanged because the only mutation is the write-only
`_<segment>_cache` assignment, which no verified claim reads; the traversal
and its KeyError behaviour are modelled exactly.  `fuel` bounds the
recursion depth; every call made with fuel larger than the total length of
the lookup strings terminates before exhausting it. -/
def set_cache_value_on_records (included : List Record) :
    Nat → List Record → List String → Option (List Record)
  | 0, _, _ => none
  | Nat.succ fuel, records, lookups =>
    (set_cache_groups included fuel records (base_lookup_mapping lookups)).map
      (fun _ => records)
  termination_by fuel _ _ => (fuel, 0)

/-- Iteration over the grouped base segments of
`_set_cache_value_on_records`: resolve each segment's related records, then
recurse into the nested paths with them. -/
def set_cache_groups (included : List Record) :
    Nat → List Record → List (String × List String) → Option Unit
  | _, _, [] => some Unit.unit
  | fuel, records, (seg, nested) :: rest =>
    match collect_related included records seg with
    | none => none
    | some nestedRecords =>
      match set_cache_value_on_records included fuel nestedRecords nested with
      | none => none
      | some _ => set_cache_groups included fuel records rest
  termination_by fuel _ groups => (fuel, groups.length + 1)

end

/-- Fuel sufficient for `set_cache_value_on_records` on the given lookups. -/
def lookup_fuel (lookups : List String) : Nat :=
  lookups.foldl (fun a s => a + s.length + 1) 0 + 1

/-- Enrichment of a page's records with relationships resolved purely from
that page's included records (`_enrich_records_with_included_resources`,
manager.py lines 135-145): a no-op when no prefetch is configured. -/
def enrich_records_with_included_resources (prefetchRelated : List String)
    (records included : List Record) : Option (List Record) :=
  if prefetchRelated.isEmpty then some records
  else set_cache_value_on_records included (lookup_fuel prefetchRelated) records prefetchRelated

/-- Transport error raised by the client, carrying the HTTP status code
(`JSONAPIClientError`; client.py is an external collaborator per the spec). -/
structure ClientError where
  status : Nat
  deriving DecidableEq, Repr

/-- One page document returned by the client: `data` array and optional
`included` array. -/
structure Page where
  data : List Resource
  included : Option (List Resource) := none
  deriving DecidableEq, Repr

/-- Decidable equality of client results, used to evaluate concrete server
behaviours. -/
instance {ε α : Type} [DecidableEq ε] [DecidableEq α] : DecidableEq (Except ε α) := by
  intro a b
  cases a with
  | ok x =>
    cases b with
    | ok y => exact if h : x = y then isTrue (by rw [h]) else isFalse (by
        intro hc
        cases hc
        exact h rfl)
    | error f => exact isFalse (by intro hc; cases hc)
  | error e =>
    cases b with
    | ok y => exact isFalse (by intro hc; cases hc)
    | error f => exact if h : e = f then isTrue (by rw [h]) else isFalse (by
        intro hc
        cases hc
        exact h rfl)

/-- Exception propagated out of the iteration: a transport error, a field
validation error during materialization, or a KeyError from prefetch
enrichment. -/
inductive IterErr where
  | client (e : ClientError)
  | validation
  | keyError
  deriving DecidableEq, Repr

/-- Observable outcome of `_fetch_iterate`: the records yielded before
termination, the page numbers requested in order, and the exception, if any,
that propagated to the caller (`none` means clean termination). -/
structure IterResult where
  yielded : List Record
  requests : List Nat
  err : Option IterErr
  deriving DecidableEq, Repr

/-- Page-walking loop of `_fetch_iterate` (manager.py lines 87-117), with
the page number and cache threaded explicitly and `fuel` bounding the number
of pages visited (the Python loop is unbounded when the server keeps
returning full pages).  A 404 on a page number greater than 1 terminates
cleanly; any other transport error propagates; otherwise the page's included
then data documents are materialized through the cache, the data records are
enriched and yielded, and iteration stops when the page is short. -/
def fetch_iterate_aux (reg : Registry) (version : Option String)
    (server : Nat → Except ClientError Page) (pageSize : Nat)
    (prefetchRelated : List String) :
    Nat → Nat → Cache → IterResult × Cache
  | 0, _, c => ({ yielded := [], requests := [], err := none }, c)
  | Nat.succ fuel, pageNumber, c =>
    match server pageNumber with
    | Except.error e =>
      if pageNumber > 1 && e.status == 404 then
        ({ yielded := [], requests := [pageNumber], err := none }, c)
      else
        ({ yielded := [], requests := [pageNumber], err := some (IterErr.client e) }, c)
    | Except.ok page =>
      match from_resources reg version c (page.included.getD []) with
      | none => ({ yielded := [], requests := [pageNumber], err := some IterErr.validation }, c)
      | some (includedRecords, c1) =>
        match from_resources reg version c1 page.data with
        | none => ({ yielded := [], requests := [pageNumber], err := some IterErr.validation }, c1)
        | some (records, c2) =>
          match enrich_records_with_included_resources prefetchRelated records includedRecords with
          | none => ({ yielded := [], requests := [pageNumber], err := some IterErr.keyError }, c2)
          | some recs =>
            if page.data.length < pageSize then
              ({ yielded := recs, requests := [pageNumber], err := none }, c2)
            else
              let (rest, c3) :=
                fetch_iterate_aux reg version server pageSize prefetchRelated fuel
                  (pageNumber + 1) c2
              ({ yielded := recs ++ rest.yielded,
                 requests := pageNumber :: rest.requests,
                 err := rest.err }, c3)

/-- Entry point of the iteration (`iterator()` / `_fetch_iterate`): page size
from the type's meta with default 50, starting at page 1. -/
def fetch_iterate (reg : Registry) (version : Option String) (model : ModelCls)
    (server : Nat → Except ClientError Page) (prefetchRelated : List String)
    (fuel : Nat) (c : Cache) : IterResult × Cache :=
  fetch_iterate_aux reg version server (model.pageSize.getD 50) prefetchRelated fuel 1 c

/-- Concatenated data-resource pks of pages `start ..= start+m-1`, the
records a clean run over those pages yields, identified by pk. -/
def join_pks (pg : Nat → Page) : Nat → Nat → List (Option Nat)
  | _, 0 => []
  | start, Nat.succ m =>
    ((pg start).data).map (fun r => some r.rid) ++ join_pks pg (start + 1) m

/-- Truth of "every class this resource's type resolves to can merge it":
the condition under which `from_resources` cannot raise a validation error
on the resource. -/
def mergeable_with (reg : Registry) (r : Resource) : Bool :=
  match find_model_class reg r.rtype with
  | some cls => (build_kwargs cls.fields r none).isSome
  | none => true

/-- Dotted include paths implied by one prefetch path
(`_prepared_prefetch_for_include` inner loop, manager.py lines 127-132):
every prefix of the `__`-separated chain, joined with dots. -/
def dotted_include_paths (item : String) : List String :=
  let elements := py_split item "__"
  (List.range elements.length).map
    (fun k => String.intercalate "." (elements.take (k + 1)))

/-- The set of include paths implied by the prefetch configuration
(`_prepared_prefetch_for_include`), as a list up to membership. -/
def prepared_prefetch_for_include (prefetchRelated : List String) : List String :=
  prefetchRelated.flatMap dotted_include_paths

/-- Effective include list stored by `JSONAPIManager.__init__` (manager.py
line 29): `sorted(list(set(include) | prepared_prefetch_for_include))`. -/
def effective_include (includeList prefetchRelated : List String) : List String :=
  ((includeList ++ prepared_prefetch_for_include prefetchRelated).dedup).insertionSort
    (fun a b => a ≤ b)

/-- A mutable Python object the manager references: a list of strings
(sort / include / prefetch) or a dict (filters / fields; the values are
opaque payloads modelled as strings). -/
inductive PyObj where
  | slist (xs : List String)
  | sdict (m : List (String × String))
  deriving DecidableEq, Repr

/-- A heap of mutable Python objects: an address store plus the next fresh
address.  New writes are prepended and shadow older entries. -/
structure Heap where
  store : List (Nat × PyObj)
  next : Nat
  deriving DecidableEq, Repr

/-- Heap read at an address. -/
def heap_get (h : Heap) (a : Nat) : Option PyObj :=
  (h.store.find? (fun p => p.1 == a)).map (fun p => p.2)

/-- In-place mutation of the object at an address (Python `list.extend`). -/
def heap_set (h : Heap) (a : Nat) (v : PyObj) : Heap :=
  { store := (a, v) :: h.store, next := h.next }

/-- Allocation of a fresh object (a Python literal, `deepcopy`, or
`sorted(...)` result). -/
def heap_alloc (h : Heap) (v : PyObj) : Nat × Heap :=
  (h.next, { store := (h.next, v) :: h.store, next := h.next + 1 })

/-- List content at an address (the manager only reads list slots it wrote). -/
def heap_get_list (h : Heap) (a : Nat) : List String :=
  match heap_get h a with
  | some (PyObj.slist xs) => xs
  | _ => []

/-- Dict content at an address. -/
def heap_get_dict (h : Heap) (a : Nat) : List (String × String) :=
  match heap_get h a with
  | some (PyObj.sdict m) => m
  | _ => []

/-- Python dict merge `\x7b**a, **b\x7d`: keys of `a` in order with `b`'s
value on collision, then the keys only `b` has. -/
def dict_merge (a b : List (String × String)) : List (String × String) :=
  a.map (fun p => (p.1, (alookup b p.1).getD p.2)) ++
    b.filter (fun p => !((a.map (fun q => q.1)).contains p.1))

/-- The manager object: addresses of its five stored query components
(`_fields`, `_prefetch_related`, `_include`, `_filters`, `_sort`). -/
structure ManagerObj where
  fieldsA : Nat
  prefetchA : Nat
  includeA : Nat
  filtersA : Nat
  sortA : Nat
  deriving DecidableEq, Repr

/-- Keyword arguments of `JSONAPIManager.__init__`: object references for
the components, `none` when the keyword is absent (so a fresh empty literal
is allocated). -/
structure InitArgs where
  fieldsA : Option Nat := none
  prefetchA : Option Nat := none
  includeA : Option Nat := none
  filtersA : Option Nat := none
  sortA : Option Nat := none
  deriving DecidableEq, Repr

/-- Constructor `JSONAPIManager.__init__` (manager.py lines 23-32): each
component keeps the passed object reference (or a fresh empty literal), and
`_include` is rebound to a freshly allocated sorted, deduplicated union of
the include argument and the prefixes implied by `_prefetch_related`. -/
def manager_init (h : Heap) (a : InitArgs) : ManagerObj × Heap :=
  let (fA, h1) :=
    match a.fieldsA with
    | some x => (x, h)
    | none => heap_alloc h (PyObj.sdict [])
  let (pA, h2) :=
    match a.prefetchA with
    | some x => (x, h1)
    | none => heap_alloc h1 (PyObj.slist [])
  let (iA0, h3) :=
    match a.includeA with
    | some x => (x, h2)
    | none => heap_alloc h2 (PyObj.slist [])
  let (iA, h4) :=
    heap_alloc h3 (PyObj.slist (effective_include (heap_get_list h3 iA0) (heap_get_list h3 pA)))
  let (flA, h5) :=
    match a.filtersA with
    | some x => (x, h4)
    | none => heap_alloc h4 (PyObj.sdict [])
  let (sA, h6) :=
    match a.sortA with
    | some x => (x, h5)
    | none => heap_alloc h5 (PyObj.slist [])
  ({ fieldsA := fA, prefetchA := pA, includeA := iA, filtersA := flA, sortA := sA }, h6)

/-- Keyword arguments of `modify`; an absent keyword is the empty literal,
which combines identically. -/
structure ModifyKwargs where
  fieldsK : List (String × String) := []
  filtersK : List (String × String) := []
  includeK : List String := []
  prefetchK : List String := []
  sortK : List String := []
  deriving DecidableEq, Repr

/-- Builder combination `modify` (manager.py lines 34-56): fresh merged
dicts for fields and filters, deep copies of the three lists extended in
place with the new items, then a new manager constructed over those fresh
objects.  The original manager's objects are never written. -/
def modify (h : Heap) (m : ManagerObj) (kw : ModifyKwargs) : ManagerObj × Heap :=
  let (fA, h1) := heap_alloc h (PyObj.sdict (dict_merge (heap_get_dict h m.fieldsA) kw.fieldsK))
  let (flA, h2) :=
    heap_alloc h1 (PyObj.sdict (dict_merge (heap_get_dict h1 m.filtersA) kw.filtersK))
  let (iA, h3) := heap_alloc h2 (PyObj.slist (heap_get_list h2 m.includeA))
  let h4 := heap_set h3 iA (PyObj.slist (heap_get_list h3 iA ++ kw.includeK))
  let (pA, h5) := heap_alloc h4 (PyObj.slist (heap_get_list h4 m.prefetchA))
  let h6 := heap_set h5 pA (PyObj.slist (heap_get_list h5 pA ++ kw.prefetchK))
  let (sA, h7) := heap_alloc h6 (PyObj.slist (heap_get_list h6 m.sortA))
  let h8 := heap_set h7 sA (PyObj.slist (heap_get_list h7 sA ++ kw.sortK))
  manager_init h8
    { fieldsA := some fA, prefetchA := some pA, includeA := some iA,
      filtersA := some flA, sortA := some sA }

/-- Builder `filter(**kwargs)` (manager.py lines 61-62). -/
def manager_filter (h : Heap) (m : ManagerObj) (filters : List (String × String)) :
    ManagerObj × Heap :=
  modify h m { filtersK := filters }

/-- Builder `sort(*args)` (manager.py lines 58-59). -/
def manager_sort (h : Heap) (m : ManagerObj) (args : List String) : ManagerObj × Heap :=
  modify h m { sortK := args }

/-- Builder `include(*args)` (manager.py lines 64-65). -/
def manager_include (h : Heap) (m : ManagerObj) (args : List String) : ManagerObj × Heap :=
  modify h m { includeK := args }

/-- Builder `prefetch_related(*args)` (manager.py lines 67-68). -/
def manager_prefetch_related (h : Heap) (m : ManagerObj) (args : List String) :
    ManagerObj × Heap :=
  modify h m { prefetchK := args }

/-- Builder `fields(**kwargs)` (manager.py lines 70-71). -/
def manager_fields (h : Heap) (m : ManagerObj) (fields : List (String × String)) :
    ManagerObj × Heap :=
  modify h m { fieldsK := fields }

/-- Validity of a manager over a heap: its component addresses have been
allocated. -/
def ManagerWF (h : Heap) (m : ManagerObj) : Prop :=
  m.fieldsA < h.next ∧ m.prefetchA < h.next ∧ m.includeA < h.next ∧
    m.filtersA < h.next ∧ m.sortA < h.next

/-- Truth of "the relationship value is non-empty": a single identifier, or
a non-empty identifier list. -/
def rel_nonempty (rv : RelValue) : Prop :=
  match rv with
  | RelValue.one _ => True
  | RelValue.many l => l ≠ []

/-- Concrete record type used to instantiate theorems with hypotheses: the
`Dummy` test model (resource type `tests`, one attribute, one to-one
relationship, page size 10). -/
def demo_cls : ModelCls :=
  { resourceType := "tests",
    fields := [{ name := "field", kind := FieldKind.attr },
               { name := "related", kind := FieldKind.relationship false }],
    cacheExpiration := none,
    pageSize := some 10 }

/-- Concrete registry holding only the demo type. -/
def demo_reg : Registry := [demo_cls]

/-- Concrete wire resource of the demo type with a given id. -/
def demo_resource (n : Nat) : Resource :=
  { rtype := "tests", rid := n, attributes := [("field", "x")], relationships := [] }

/-- Concrete server pages of sizes [10, 10, 10, 10, 8] carrying ids 1..48 in
order. -/
def demo_page (p : Nat) : Page :=
  { data := (List.range (if p = 5 then 8 else 10)).map
      (fun i => demo_resource (10 * (p - 1) + i + 1)),
    included := none }

/-- Concrete server succeeding on pages 1..5 with the demo pages. -/
def demo_server (p : Nat) : Except ClientError Page :=
  if p ≤ 5 then Except.ok (demo_page p) else Except.error { status := 404 }

/-- Concrete server succeeding with full demo pages 1..2 and failing with a
404 transport error from page 3 on. -/
def demo_server_404 (p : Nat) : Except ClientError Page :=
  if p ≤ 2 then Except.ok (demo_page p) else Except.error { status := 404 }

/-- Concrete empty heap. -/
def demo_heap0 : Heap := { store := [], next := 0 }

/-- Concrete manager allocated on the empty heap with no arguments. -/
def demo_manager : ManagerObj × Heap := manager_init demo_heap0 {}

/-- C9: for two records of the same concrete class, `__eq__` holds iff the
integer pks agree; with an absent pk a record equals only the very same
object; records of different concrete classes are never equal.  Object
identity is modelled by `objId` (the hypothesis says the representation is
injective: same `objId` means same object). -/
theorem record_eq_matches_id_semantics (a b : PyRecord)
    (hinj : a.objId = b.objId → a = b) :
    (a.record.cls ≠ b.record.cls → record_eq a b = some false) ∧
    (a.record.cls = b.record.cls →
      ∀ myPk otherPk, a.record.pk = some myPk → b.record.pk = some otherPk →
        (record_eq a b = some true ↔ myPk = otherPk)) ∧
    (a.record.pk = none → (record_eq a b = some true ↔ a = b)) := by
  refine ⟨fun hne => ?_, fun hcls myPk otherPk ha hb => ?_, fun ha => ?_⟩
  · simp [record_eq, hne]
  · simp [record_eq, hcls, ha, hb]
  · by_cases hcls : a.record.cls = b.record.cls
    · simp only [record_eq, hcls, ne_eq, not_true_eq_false, if_false, ha]
      constructor
      · intro h
        exact hinj (by simpa using h)
      · intro h
        subst h
        simp
    · simp only [record_eq, ne_eq, hcls, not_false_eq_true, if_true]
      constructor
      · intro h
        cases h
      · intro h
        subst h
        exact absurd rfl hcls

/-- Witness for C9 at concrete records: two distinct objects of class
`tests` with equal pk 12 compare equal. -/
theorem record_eq_matches_id_semantics_witness :
    record_eq { objId := 1, record := { cls := "tests", pk := some 12, slots := [] } }
        { objId := 2, record := { cls := "tests", pk := some 12, slots := [] } } =
      some true := by
  exact ((record_eq_matches_id_semantics
    { objId := 1, record := { cls := "tests", pk := some 12, slots := [] } }
    { objId := 2, record := { cls := "tests", pk := some 12, slots := [] } }
    (by decide)).2.1 rfl 12 12 rfl rfl).mpr rfl

/-- C10: when the response document has no top-level meta mapping, or its
meta lacks the record_count key, `count()` returns None rather than raising
or producing an integer. -/
theorem count_returns_none_without_record_count (doc : CountDocument) :
    (doc.meta = none → count_record_count doc = none) ∧
    (∀ m, doc.meta = some m → alookup m "record_count" = none →
      count_record_count doc = none) := by
  constructor
  · intro h
    simp [count_record_count, h]
  · intro m h hk
    simp [count_record_count, h, hk]

/-- Witness for C10 at concrete documents: both the missing-meta and the
missing-key shapes yield None. -/
theorem count_returns_none_without_record_count_witness :
    count_record_count { meta := none } = none ∧
    count_record_count { meta := some [("total", 3)] } = none := by
  constructor
  · exact (count_returns_none_without_record_count { meta := none }).1 rfl
  · exact (count_returns_none_without_record_count
      { meta := some [("total", 3)] }).2 [("total", 3)] rfl (by decide)

/-- C8: `save(update_fields)` fails with a validation error before the
network when the pk is absent, when update_fields is absent, or when an
update field is not declared on the type; every issued patch request comes
from a state where none of these hold (the `Except` model makes "before any
network call" structural: `error` results never carry a patch request). -/
theorem save_validates_before_network (cls : ModelCls) (rec : Record)
    (uf : Option (List String)) :
    (rec.pk = none → ∃ msg, save cls rec uf = Except.error msg) ∧
    (uf = none → ∃ msg, save cls rec uf = Except.error msg) ∧
    (∀ fs f, uf = some fs → f ∈ fs → f ∉ cls.fields.map (fun fd => fd.name) →
      ∃ msg, save cls rec uf = Except.error msg) ∧
    (∀ call, save cls rec uf = Except.ok call →
      rec.pk = some call.resource_id ∧
      ∃ fs, uf = some fs ∧ ∀ f ∈ fs, f ∈ cls.fields.map (fun fd => fd.name)) := by
  refine ⟨fun hpk => ?_, fun huf => ?_, fun fs f huf hf hnd => ?_, fun call hok => ?_⟩
  · exact ⟨"Record creation not supported", by simp only [save, hpk]⟩
  · cases hpk : rec.pk with
    | none => exact ⟨"Record creation not supported", by simp only [save, hpk]⟩
    | some pk =>
      exact ⟨"Argument update_fields needed to update record", by simp only [save, hpk, huf]⟩
  · cases hpk : rec.pk with
    | none => exact ⟨"Record creation not supported", by simp only [save, hpk]⟩
    | some pk =>
      subst huf
      have hmem : f ∈ fs.filter (fun g => !((cls.fields.map (fun fd => fd.name)).contains g)) := by
        refine List.mem_filter.mpr ⟨hf, ?_⟩
        simpa using hnd
      have hne : (fs.filter
          (fun g => !((cls.fields.map (fun fd => fd.name)).contains g))).isEmpty = false := by
        cases hv : fs.filter (fun g => !((cls.fields.map (fun fd => fd.name)).contains g)) with
        | nil => rw [hv] at hmem; cases hmem
        | cons x xs => simp [List.isEmpty]
      refine ⟨"Fields not present on resource", ?_⟩
      simp only [save, hpk, hne]
      rw [if_neg (by decide)]
  · cases hpk : rec.pk with
    | none =>
      rw [show save cls rec uf = Except.error "Record creation not supported" from by
        simp only [save, hpk]] at hok
      cases hok
    | some pk =>
      cases huf : uf with
      | none =>
        rw [show save cls rec uf =
            Except.error "Argument update_fields needed to update record" from by
          simp only [save, hpk, huf]] at hok
        cases hok
      | some fs =>
        cases hempty :
            (fs.filter (fun g => !((cls.fields.map (fun fd => fd.name)).contains g))).isEmpty with
        | false =>
          rw [show save cls rec uf = Except.error "Fields not present on resource" from by
            simp only [save, hpk, huf, hempty]
            rw [if_neg (by decide)]] at hok
          cases hok
        | true =>
          cases hdata : fs.mapM (fun f => (alookup rec.slots f).map (fun v => (f, v))) with
          | none =>
            rw [show save cls rec uf = Except.error "AttributeError" from by
              simp only [save, hpk, huf, hempty]
              rw [if_pos trivial, hdata]] at hok
            cases hok
          | some updateData =>
            rw [show save cls rec uf = Except.ok
                { resource_type := cls.resourceType, resource_id := pk,
                  attributes := updateData } from by
              simp only [save, hpk, huf, hempty]
              rw [if_pos trivial, hdata]] at hok
            cases hok
            refine ⟨rfl, fs, rfl, fun f hf => ?_⟩
            by_contra hnd
            have hmem : f ∈ fs.filter
                (fun g => !((cls.fields.map (fun fd => fd.name)).contains g)) := by
              refine List.mem_filter.mpr ⟨hf, ?_⟩
              simpa using hnd
            have hnil : fs.filter
                (fun g => !((cls.fields.map (fun fd => fd.name)).contains g)) = [] := by
              cases hv : fs.filter
                  (fun g => !((cls.fields.map (fun fd => fd.name)).contains g)) with
              | nil => rfl
              | cons x xs => rw [hv] at hempty; simp [List.isEmpty] at hempty
            rw [hnil] at hmem
            cases hmem

/-- Witness for C8 at concrete inputs: a record without pk is rejected, and
a patch issued for a declared, set field reports the record's pk. -/
theorem save_validates_before_network_witness :
    (∃ msg, save demo_cls { cls := "tests", pk := none, slots := [] } none =
      Except.error msg) ∧
    (∃ msg, save demo_cls
      { cls := "tests", pk := some 1, slots := [] } (some ["unknown"]) =
      Except.error msg) := by
  constructor
  · exact (save_validates_before_network demo_cls
      { cls := "tests", pk := none, slots := [] } none).1 rfl
  · exact (save_validates_before_network demo_cls
      { cls := "tests", pk := some 1, slots := [] } (some ["unknown"])).2.2.1
      ["unknown"] "unknown" rfl (by decide) (by decide)

/-- C5: a configured cache_expiration of 0 makes `_get_many_from_cache`
return an empty mapping with no backend operation and makes `cache_many`
store nothing; an expiration of None or a positive value issues the normal
bulk read and bulk write. -/
theorem cache_expiration_zero_disables_cache (cls : ModelCls) (version : Option String)
    (c : Cache) (ids : List Nat) (insts : List Record) :
    (cls.cacheExpiration = some (some 0) →
      get_many_from_cache cls version c ids = ([], []) ∧
      cache_many cls version insts = []) ∧
    (cls.cacheExpiration = some none →
      (get_many_from_cache cls version c ids).2 =
        [CacheOp.getMany (ids.map (fun pk => cache_key version cls.resourceType (toString pk)))] ∧
      cache_many cls version insts =
        [CacheOp.setMany (insts.map (fun inst =>
          (cache_key version cls.resourceType (pk_str inst.pk), inst))) none]) ∧
    (∀ n : Int, 0 < n → cls.cacheExpiration = some (some n) →
      (get_many_from_cache cls version c ids).2 =
        [CacheOp.getMany (ids.map (fun pk => cache_key version cls.resourceType (toString pk)))] ∧
      cache_many cls version insts =
        [CacheOp.setMany (insts.map (fun inst =>
          (cache_key version cls.resourceType (pk_str inst.pk), inst))) (some n)]) := by
  refine ⟨fun h => ⟨?_, ?_⟩, fun h => ⟨?_, ?_⟩, fun n hn h => ⟨?_, ?_⟩⟩
  · simp [get_many_from_cache, h]
  · simp [cache_many, h]
  · simp [get_many_from_cache, h]
  · simp [cache_many, h]
  · simp only [get_many_from_cache, h, Option.getD_some]
    rw [if_neg (by simp; omega)]
  · simp only [cache_many, h, Option.getD_some]
    rw [if_pos (by simp [hn])]

/-- Witness for C5 at a concrete type with cache_expiration 0: no read, no
write. -/
theorem cache_expiration_zero_disables_cache_witness :
    get_many_from_cache
      { resourceType := "tests", fields := [], cacheExpiration := some (some 0),
        pageSize := none } none [] [137] = ([], []) ∧
    cache_many
      { resourceType := "tests", fields := [], cacheExpiration := some (some 0),
        pageSize := none } none [{ cls := "tests", pk := some 137, slots := [] }] = [] :=
  (cache_expiration_zero_disables_cache
    { resourceType := "tests", fields := [], cacheExpiration := some (some 0),
      pageSize := none } none [] [137]
    [{ cls := "tests", pk := some 137, slots := [] }]).1 rfl

/-- Association list lookup on a cons cell. -/
theorem alookup_cons {β : Type} (k : String) (v : β) (l : List (String × β)) (name : String) :
    alookup ((k, v) :: l) name = if k == name then some v else alookup l name := by
  by_cases h : (k == name) = true
  · simp [alookup, List.find?, h]
  · simp [alookup, List.find?, h]

/-- Carry-forward property of the kwargs assembly: a declared field name
absent from the document data keeps the existing record's relationship slot
in the assembled kwargs. -/
theorem build_kwargs_carries_forward
    (fields : List FieldDecl) (r : Resource) (e : Record) (name : String)
    (rv : RelValue) (kwargs : List (String × JVal))
    (hnodup : (fields.map (fun f => f.name)).Nodup)
    (hmem : ∃ k, FieldDecl.mk name k ∈ fields)
    (habs : resource_data_lookup r name = none)
    (hslot : alookup e.slots name = some (JVal.r rv))
    (hbk : build_kwargs fields r (some e) = some kwargs) :
    alookup kwargs name = some (JVal.r rv) := by
  induction fields generalizing kwargs with
  | nil =>
    obtain ⟨k, hk⟩ := hmem
    cases hk
  | cons f rest ih =>
    rw [build_kwargs] at hbk
    cases hrec : build_kwargs rest r (some e) with
    | none => simp only [hrec] at hbk; cases hbk
    | some tail =>
      simp only [hrec] at hbk
      by_cases hname : f.name = name
      · simp only [hname, habs, carry_forward, hslot] at hbk
        cases hbk
        rw [alookup_cons]
        simp
      · have hmem' : ∃ k, FieldDecl.mk name k ∈ rest := by
          obtain ⟨k, hk⟩ := hmem
          cases hk with
          | head => exact absurd rfl hname
          | tail _ hk2 => exact ⟨k, hk2⟩
        have hnd' : (rest.map (fun f => f.name)).Nodup := (List.nodup_cons.mp hnodup).2
        have hbeq : (f.name == name) = false := by
          simpa using hname
        cases hlook : resource_data_lookup r f.name with
        | some v =>
          simp only [hlook] at hbk
          cases hcl : field_clean f.kind v with
          | none => simp only [hcl] at hbk; cases hbk
          | some cv =>
            simp only [hcl] at hbk
            cases hbk
            rw [alookup_cons, hbeq]
            exact ih tail hnd' hmem' hrec
        | none =>
          simp only [hlook, carry_forward] at hbk
          cases hsl : alookup e.slots f.name with
          | none =>
            simp only [hsl] at hbk
            injection hbk with hq
            subst hq
            exact ih tail hnd' hmem' hrec
          | some jv =>
            cases jv with
            | s sv =>
              simp only [hsl] at hbk
              injection hbk with hq
              subst hq
              exact ih tail hnd' hmem' hrec
            | r rv' =>
              simp only [hsl] at hbk
              cases hbk
              rw [alookup_cons, hbeq]
              exact ih tail hnd' hmem' hrec

/-- C1: merging a document with an existing cached record carries forward
every declared relationship field that is absent from the document's
attributes and relationships keys but set (non-empty) on the existing
record: the merged record holds the existing identifier value, never
becoming unset. -/
theorem merge_preserves_existing_relationship
    (cls : ModelCls) (r : Resource) (e : Record) (name : String) (m : Bool)
    (rv : RelValue) (merged : Record)
    (hnodup : (cls.fields.map (fun f => f.name)).Nodup)
    (hdecl : FieldDecl.mk name (FieldKind.relationship m) ∈ cls.fields)
    (habsA : alookup r.attributes name = none)
    (habsR : alookup r.relationships name = none)
    (hslot : alookup e.slots name = some (JVal.r rv))
    (_hne : rel_nonempty rv)
    (hmerge : merge_resource_with_existing_cache cls r (some e) = some merged) :
    alookup merged.slots name = some (JVal.r rv) := by
  have habs : resource_data_lookup r name = none := by
    rw [resource_data_lookup, habsR, habsA]
    rfl
  unfold merge_resource_with_existing_cache at hmerge
  cases hbk : build_kwargs cls.fields r (some e) with
  | none => rw [hbk] at hmerge; cases hmerge
  | some kwargs =>
    rw [hbk, Option.map_some'] at hmerge
    cases hmerge
    exact build_kwargs_carries_forward cls.fields r e name rv kwargs hnodup
      ⟨FieldKind.relationship m, hdecl⟩ habs hslot hbk

/-- Witness for C1 at concrete inputs: the cached `related` identifier of
record 137 survives a document that updates only `field`. -/
theorem merge_preserves_existing_relationship_witness :
    alookup
      ({ cls := "tests", pk := some 137,
         slots := [("field", JVal.s "Updated"),
                   ("related", JVal.r (RelValue.one { rtype := "related_records", rid := 42 }))]
        } : Record).slots "related" =
      some (JVal.r (RelValue.one { rtype := "related_records", rid := 42 })) := by
  exact merge_preserves_existing_relationship demo_cls
    { rtype := "tests", rid := 137, attributes := [("field", "Updated")], relationships := [] }
    { cls := "tests", pk := some 137,
      slots := [("related", JVal.r (RelValue.one { rtype := "related_records", rid := 42 }))] }
    "related" false (RelValue.one { rtype := "related_records", rid := 42 }) _
    (by decide) (by decide) (by decide) (by decide) (by decide) trivial rfl

/-- C7: the effective include list is the deduplicated, sorted union of the
requested includes and every dotted prefix implied by each prefetch path;
in particular a prefetch path a__b contributes both a and a.b. -/
theorem effective_include_characterization (inc pre : List String) :
    (effective_include inc pre).Sorted (fun a b => a ≤ b) ∧
    (effective_include inc pre).Nodup ∧
    (∀ s, s ∈ effective_include inc pre ↔
      s ∈ inc ∨ ∃ p ∈ pre, s ∈ dotted_include_paths p) ∧
    dotted_include_paths "a__b" = ["a", "a.b"] := by
  refine ⟨?_, ?_, ?_, ?_⟩
  · unfold effective_include
    exact List.sorted_insertionSort _ _
  · unfold effective_include
    exact ((List.perm_insertionSort _ _).nodup_iff).mpr (List.nodup_dedup _)
  · intro s
    unfold effective_include
    rw [(List.perm_insertionSort _ _).mem_iff, List.mem_dedup, List.mem_append,
      prepared_prefetch_for_include, List.mem_flatMap]
  · decide

/-- Membership in the set-style pair insertion: exactly the old and the new
pairs. -/
theorem mem_set_add_pairs (ps acc : List (String × Nat)) (x : String × Nat) :
    x ∈ set_add_pairs acc ps ↔ x ∈ acc ∨ x ∈ ps := by
  induction ps generalizing acc with
  | nil => simp [set_add_pairs]
  | cons p ps ih =>
    simp only [set_add_pairs, List.foldl_cons] at ih ⊢
    by_cases hp : p ∈ acc
    · rw [if_pos hp, ih]
      constructor
      · rintro (h | h)
        · exact Or.inl h
        · exact Or.inr (List.mem_cons_of_mem _ h)
      · rintro (h | h)
        · exact Or.inl h
        · cases List.mem_cons.mp h with
          | inl he => exact Or.inl (he ▸ hp)
          | inr ht => exact Or.inr ht
    · rw [if_neg hp, ih]
      simp only [List.mem_append, List.mem_singleton, List.mem_cons]
      tauto

/-- Membership in the collected identifier union of one segment: the pairs
some record carries for the segment. -/
theorem mem_collect_segment (many : Bool) (records : List Record) (seg : String)
    (x : String × Nat) :
    x ∈ collect_segment_identifiers many records seg ↔
      ∃ rec ∈ records, x ∈ py_carried_pairs many rec seg := by
  have main : ∀ (rs : List Record) (acc : List (String × Nat)),
      x ∈ rs.foldl (fun a rec => set_add_pairs a (py_carried_pairs many rec seg)) acc ↔
        x ∈ acc ∨ ∃ rec ∈ rs, x ∈ py_carried_pairs many rec seg := by
    intro rs
    induction rs with
    | nil => simp
    | cons rec rs ih =>
      intro acc
      rw [List.foldl_cons, ih, mem_set_add_pairs]
      simp only [List.mem_cons]
      constructor
      · rintro ((h | h) | ⟨rec2, hrec2, hx⟩)
        · exact Or.inl h
        · exact Or.inr ⟨rec, Or.inl rfl, h⟩
        · exact Or.inr ⟨rec2, Or.inr hrec2, hx⟩
      · rintro (h | ⟨rec2, (rfl | hrec2), hx⟩)
        · exact Or.inl (Or.inl h)
        · exact Or.inl (Or.inr hx)
        · exact Or.inr ⟨rec2, hrec2, hx⟩
  exact (main records []).trans (by simp)

/-- One segment issues at most one related fetch. -/
theorem segment_related_fetch_calls_length_le (cls : ModelCls) (reg : Registry)
    (records : List Record) (seg : String) (nested : List String) :
    (segment_related_fetch_calls cls reg records seg nested).length ≤ 1 := by
  unfold segment_related_fetch_calls
  cases hf : cls.fields.find? (fun f => f.name == seg) with
  | none => simp [hf]
  | some fd =>
    obtain ⟨n, k⟩ := fd
    cases k with
    | attr => simp [hf]
    | relationship many =>
      simp only [hf]
      cases hid : collect_segment_identifiers many records seg with
      | nil => simp [hid]
      | cons p rest =>
        obtain ⟨t0, i0⟩ := p
        simp only [hid]
        cases hm : find_model_class reg t0 with
        | none => simp [hm]
        | some mc => simp [hm]

/-- C2: within one `_handle_prefetching` invocation, a declared relationship
segment carried (with one resolvable type) by at least one record issues
exactly one batched `get_many` call whose ids are the union of the (type,id)
pairs collected from all records carrying the segment; and no segment ever
issues more than one call. -/
theorem handle_prefetching_issues_one_batched_call
    (cls : ModelCls) (reg : Registry) (records : List Record)
    (seg : String) (nested : List String) (many : Bool) (t : String) (mc : ModelCls)
    (hfield : cls.fields.find? (fun f => f.name == seg) =
      some { name := seg, kind := FieldKind.relationship many })
    (hne : collect_segment_identifiers many records seg ≠ [])
    (htype : ∀ p ∈ collect_segment_identifiers many records seg, p.1 = t)
    (hreg : find_model_class reg t = some mc) :
    segment_related_fetch_calls cls reg records seg nested =
      [{ resourceType := t,
         recordIds := (collect_segment_identifiers many records seg).map (fun p => p.2),
         nested := nested }] ∧
    (∀ ty i, (ty, i) ∈ collect_segment_identifiers many records seg ↔
      ∃ rec ∈ records, (ty, i) ∈ py_carried_pairs many rec seg) ∧
    (∀ prefetchRelated,
      (handle_prefetching_calls cls reg records prefetchRelated).length ≤
        (base_lookup_mapping prefetchRelated).length) := by
  refine ⟨?_, fun ty i => mem_collect_segment many records seg (ty, i), fun pre => ?_⟩
  · cases hid : collect_segment_identifiers many records seg with
    | nil => exact absurd hid hne
    | cons p rest =>
      obtain ⟨t0, i0⟩ := p
      have ht0 : t0 = t := htype (t0, i0) (by rw [hid]; exact List.mem_cons_self _ _)
      subst ht0
      simp only [segment_related_fetch_calls, hfield, hid, hreg]
  · unfold handle_prefetching_calls
    induction base_lookup_mapping pre with
    | nil => simp
    | cons g gs ih =>
      rw [List.map_cons, List.flatten_cons, List.length_append, List.length_cons]
      have h1 := segment_related_fetch_calls_length_le cls reg records g.1 g.2
      omega

/-- Witness for C2 at concrete inputs: two records each carrying related ids
137 and 42 produce one batched call with ids [137, 42]. -/
theorem handle_prefetching_issues_one_batched_call_witness :
    segment_related_fetch_calls
      { resourceType := "tests",
        fields := [{ name := "related", kind := FieldKind.relationship true }],
        cacheExpiration := none, pageSize := none }
      [{ resourceType := "related_records", fields := [], cacheExpiration := none,
         pageSize := none }]
      [{ cls := "tests", pk := some 1,
         slots := [("related", JVal.r (RelValue.many
           [{ rtype := "related_records", rid := 137 },
            { rtype := "related_records", rid := 42 }]))] },
       { cls := "tests", pk := some 2,
         slots := [("related", JVal.r (RelValue.many
           [{ rtype := "related_records", rid := 137 },
            { rtype := "related_records", rid := 42 }]))] }]
      "related" [] =
    [{ resourceType := "related_records", recordIds := [137, 42], nested := [] }] := by
  have h := (handle_prefetching_issues_one_batched_call
    { resourceType := "tests",
      fields := [{ name := "related", kind := FieldKind.relationship true }],
      cacheExpiration := none, pageSize := none }
    [{ resourceType := "related_records", fields := [], cacheExpiration := none,
       pageSize := none }]
    [{ cls := "tests", pk := some 1,
       slots := [("related", JVal.r (RelValue.many
         [{ rtype := "related_records", rid := 137 },
          { rtype := "related_records", rid := 42 }]))] },
     { cls := "tests", pk := some 2,
       slots := [("related", JVal.r (RelValue.many
         [{ rtype := "related_records", rid := 137 },
          { rtype := "related_records", rid := 42 }]))] }]
    "related" [] true "related_records"
    { resourceType := "related_records", fields := [], cacheExpiration := none,
      pageSize := none }
    (by decide) (by decide) (by decide) (by decide)).1
  rw [h]
  decide

/-- Heap reads skip a fresh entry with a different address. -/
theorem heap_get_cons_ne (b : Nat) (v : PyObj) (s : List (Nat × PyObj)) (n : Nat)
    (a : Nat) (hb : b ≠ a) :
    heap_get { store := (b, v) :: s, next := n } a = heap_get { store := s, next := n } a := by
  have hbeq : (b == a) = false := by simpa using hb
  simp [heap_get, List.find?, hbeq]

/-- The builder combination writes only freshly allocated objects: every
address allocated before it keeps its value, and the next-address counter
only grows. -/
theorem modify_preserves_old (h : Heap) (m : ManagerObj) (kw : ModifyKwargs) (a : Nat)
    (ha : a < h.next) :
    heap_get (modify h m kw).2 a = heap_get h a ∧ h.next ≤ (modify h m kw).2.next := by
  constructor
  · simp only [modify, manager_init, heap_alloc, heap_set]
    repeat rw [heap_get_cons_ne]
    case _ => rfl
    all_goals omega
  · have hnext : (modify h m kw).2.next = h.next + 1 + 1 + 1 + 1 + 1 + 1 := rfl
    omega

/-- The manager returned by the builder combination is a fresh object: its
fields-dict address is the first freshly allocated one. -/
theorem modify_result_fieldsA (h : Heap) (m : ManagerObj) (kw : ModifyKwargs) :
    (modify h m kw).1.fieldsA = h.next := rfl

/-- C6: every builder operation (filter, sort, include, fields,
prefetch_related) returns a new manager object and leaves every stored query
component of the original manager unchanged on the heap; in particular
filtering twice does not modify the original manager's filter dict. -/
theorem builder_operations_leave_manager_unchanged (h : Heap) (m : ManagerObj)
    (hwf : ManagerWF h m) :
    (∀ d a, a < h.next → heap_get (manager_filter h m d).2 a = heap_get h a) ∧
    (∀ args a, a < h.next → heap_get (manager_sort h m args).2 a = heap_get h a) ∧
    (∀ args a, a < h.next → heap_get (manager_include h m args).2 a = heap_get h a) ∧
    (∀ args a, a < h.next →
      heap_get (manager_prefetch_related h m args).2 a = heap_get h a) ∧
    (∀ d a, a < h.next → heap_get (manager_fields h m d).2 a = heap_get h a) ∧
    (∀ d, (manager_filter h m d).1 ≠ m) ∧
    (∀ args, (manager_sort h m args).1 ≠ m) ∧
    (∀ args, (manager_include h m args).1 ≠ m) ∧
    (∀ args, (manager_prefetch_related h m args).1 ≠ m) ∧
    (∀ d, (manager_fields h m d).1 ≠ m) ∧
    (∀ d1 d2,
      heap_get (manager_filter (manager_filter h m d1).2 (manager_filter h m d1).1 d2).2
          m.filtersA =
        heap_get h m.filtersA) := by
  have fresh : ∀ kw, (modify h m kw).1 ≠ m := by
    intro kw heq
    have h1 : (modify h m kw).1.fieldsA = h.next := modify_result_fieldsA h m kw
    rw [heq] at h1
    have h2 : m.fieldsA < h.next := hwf.1
    omega
  refine ⟨fun d a ha => (modify_preserves_old h m _ a ha).1,
    fun args a ha => (modify_preserves_old h m _ a ha).1,
    fun args a ha => (modify_preserves_old h m _ a ha).1,
    fun args a ha => (modify_preserves_old h m _ a ha).1,
    fun d a ha => (modify_preserves_old h m _ a ha).1,
    fun d => fresh _, fun args => fresh _, fun args => fresh _,
    fun args => fresh _, fun d => fresh _, fun d1 d2 => ?_⟩
  have hlt : m.filtersA < h.next := hwf.2.2.2.1
  have step1 := modify_preserves_old h m { filtersK := d1 } m.filtersA hlt
  have hlt2 : m.filtersA < (modify h m { filtersK := d1 }).2.next :=
    lt_of_lt_of_le hlt step1.2
  have step2 := modify_preserves_old (modify h m { filtersK := d1 }).2
    (modify h m { filtersK := d1 }).1 { filtersK := d2 } m.filtersA hlt2
  exact step2.1.trans step1.1

/-- Witness for C6 at a concrete heap: a manager freshly constructed over
the empty heap keeps its filter dict through two chained filter calls, and
filtering yields a different manager object. -/
theorem builder_operations_leave_manager_unchanged_witness :
    heap_get
      (manager_filter (manager_filter demo_manager.2 demo_manager.1 [("a", "1")]).2
        (manager_filter demo_manager.2 demo_manager.1 [("a", "1")]).1 [("b", "2")]).2
      demo_manager.1.filtersA =
    heap_get demo_manager.2 demo_manager.1.filtersA ∧
    (manager_filter demo_manager.2 demo_manager.1 [("a", "1")]).1 ≠ demo_manager.1 := by
  have h := builder_operations_leave_manager_unchanged demo_manager.2 demo_manager.1
    (by constructor
        · decide
        · constructor
          · decide
          · constructor
            · decide
            · constructor
              · decide
              · decide)
  exact ⟨h.2.2.2.2.2.2.2.2.2.2 [("a", "1")] [("b", "2")], h.2.2.2.2.2.1 [("a", "1")]⟩

/-- The carry-forward step always succeeds. -/
theorem carry_forward_isSome (e : Option Record) (nm : String) (tail : List (String × JVal)) :
    (carry_forward e nm tail).isSome = true := by
  cases e with
  | none => rfl
  | some e0 =>
    simp only [carry_forward]
    cases halo : alookup e0.slots nm with
    | none => simp
    | some jv => cases jv <;> simp

/-- Success of the kwargs assembly does not depend on the existing cached
record: only document-side cleaning can fail. -/
theorem build_kwargs_isSome_congr (fields : List FieldDecl) (r : Resource)
    (e e' : Option Record) :
    (build_kwargs fields r e).isSome = (build_kwargs fields r e').isSome := by
  induction fields with
  | nil => rfl
  | cons f rest ih =>
    rw [build_kwargs, build_kwargs]
    cases hrec : build_kwargs rest r e with
    | none =>
      have hrec' : build_kwargs rest r e' = none := by
        cases hx : build_kwargs rest r e' with
        | none => rfl
        | some tl => rw [hrec, hx] at ih; simp at ih
      simp only [hrec, hrec']
    | some tail =>
      obtain ⟨tail', hrec'⟩ : ∃ tl, build_kwargs rest r e' = some tl := by
        cases hx : build_kwargs rest r e' with
        | none => rw [hrec, hx] at ih; simp at ih
        | some tl => exact ⟨tl, rfl⟩
      simp only [hrec, hrec']
      cases hl : resource_data_lookup r f.name with
      | some v =>
        simp only [hl]
        cases hc : field_clean f.kind v with
        | none => simp [hc]
        | some cv => simp [hc]
      | none =>
        simp only [hl]
        rw [carry_forward_isSome, carry_forward_isSome]

/-- Success of the resource merge depends only on the document side. -/
theorem merge_isSome_congr (cls : ModelCls) (r : Resource) (e : Option Record) :
    (merge_resource_with_existing_cache cls r e).isSome =
      (build_kwargs cls.fields r none).isSome := by
  unfold merge_resource_with_existing_cache
  rw [Option.isSome_map']
  exact build_kwargs_isSome_congr cls.fields r e none

/-- A successful merge produces a record with the document's id as pk and
the class's resource type. -/
theorem merge_pk (cls : ModelCls) (r : Resource) (e : Option Record) (rec : Record)
    (h : merge_resource_with_existing_cache cls r e = some rec) :
    rec.pk = some r.rid ∧ rec.cls = cls.resourceType := by
  unfold merge_resource_with_existing_cache at h
  cases hbk : build_kwargs cls.fields r e with
  | none => rw [hbk] at h; cases h
  | some kwargs =>
    rw [hbk, Option.map_some'] at h
    cases h
    exact ⟨rfl, rfl⟩

/-- Traversal succeeds when every element succeeds. -/
theorem mapM_option_total {α β : Type} (f : α → Option β) (l : List α)
    (h : ∀ a ∈ l, (f a).isSome = true) : ∃ bs, mapM_option f l = some bs := by
  induction l with
  | nil => exact ⟨[], rfl⟩
  | cons a as ih =>
    obtain ⟨b, hb⟩ := Option.isSome_iff_exists.mp (h a (List.mem_cons_self _ _))
    obtain ⟨bs, hbs⟩ := ih (fun x hx => h x (List.mem_cons_of_mem _ hx))
    exact ⟨b :: bs, by simp [mapM_option, hb, hbs]⟩

/-- Traversal by a merge-style function whose successes carry the element's
id as pk produces records whose pk list is the id list. -/
theorem mapM_option_pks (g : Resource → Option Record) (rs : List Resource)
    (h : ∀ r ∈ rs, ∃ rec, g r = some rec ∧ rec.pk = some r.rid) :
    ∃ recs, mapM_option g rs = some recs ∧
      recs.map Record.pk = rs.map (fun r => some r.rid) := by
  induction rs with
  | nil => exact ⟨[], rfl, rfl⟩
  | cons r rs ih =>
    obtain ⟨rec, hrec, hpk⟩ := h r (List.mem_cons_self _ _)
    obtain ⟨recs, hrecs, hpks⟩ := ih (fun x hx => h x (List.mem_cons_of_mem _ hx))
    exact ⟨rec :: recs, by simp [mapM_option, hrec, hrecs], by simp [hpk, hpks]⟩

/-- First-occurrence keys of a constant non-empty list. -/
theorem first_occ_keys_const (t : String) :
    ∀ l : List String, (∀ x ∈ l, x = t) → l ≠ [] → first_occ_keys l = [t] := by
  intro l
  induction l with
  | nil => intro _ h; exact absurd rfl h
  | cons x xs ih =>
    intro hall _
    have hx : x = t := hall x (List.mem_cons_self _ _)
    subst hx
    rw [first_occ_keys]
    by_cases hxs : xs = []
    · subst hxs; simp [first_occ_keys]
    · rw [ih (fun y hy => hall y (List.mem_cons_of_mem _ hy)) hxs]
      simp

/-- Grouping of a non-empty single-type resource list. -/
theorem group_by_type_const (t : String) (rs : List Resource)
    (hall : ∀ r ∈ rs, r.rtype = t) (hne : rs ≠ []) :
    group_by_type rs = [(t, rs)] := by
  unfold group_by_type
  rw [first_occ_keys_const t (rs.map (fun r => r.rtype))
    (fun x hx => by
      obtain ⟨r, hr, rfl⟩ := List.mem_map.mp hx
      exact hall r hr)
    (by simpa using hne)]
  simp only [List.map_cons, List.map_nil]
  rw [List.filter_eq_self.mpr (fun r hr => by simpa using hall r hr)]

/-- Members of a type group belong to the input and carry the group's type. -/
theorem group_by_type_mem (rs : List Resource) (g : String × List Resource)
    (hg : g ∈ group_by_type rs) :
    ∀ r ∈ g.2, r ∈ rs ∧ r.rtype = g.1 := by
  unfold group_by_type at hg
  obtain ⟨t, _, rfl⟩ := List.mem_map.mp hg
  intro r hr
  have h := List.mem_filter.mp hr
  exact ⟨h.1, by simpa using h.2⟩

/-- The per-group materialization succeeds when every document can be merged
by the class its group's type resolves to. -/
theorem from_resources_groups_total (reg : Registry) (version : Option String)
    (gs : List (String × List Resource)) (c : Cache)
    (h : ∀ g ∈ gs, ∀ r ∈ g.2, ∀ cls2, find_model_class reg g.1 = some cls2 →
      (build_kwargs cls2.fields r none).isSome = true) :
    ∃ out, from_resources_groups reg version gs c = some out := by
  induction gs generalizing c with
  | nil => exact ⟨([], c), rfl⟩
  | cons g gs ih =>
    obtain ⟨t, ms⟩ := g
    rw [from_resources_groups]
    cases hf : find_model_class reg t with
    | none =>
      simp only [hf]
      exact ih c (fun g2 hg2 => h g2 (List.mem_cons_of_mem _ hg2))
    | some cls2 =>
      obtain ⟨batch, hbatch⟩ := mapM_option_total
        (fun r => merge_resource_with_existing_cache cls2 r
          (nlookup (get_many_from_cache cls2 version c (ms.map (fun r2 => r2.rid))).1 r.rid))
        ms
        (fun r hr => by
          rw [merge_isSome_congr]
          exact h (t, ms) (List.mem_cons_self _ _) r hr cls2 hf)
      simp only [hf, hbatch]
      obtain ⟨⟨recs, c3⟩, hrest⟩ :=
        ih (apply_cache_ops c (cache_many cls2 version batch))
          (fun g2 hg2 => h g2 (List.mem_cons_of_mem _ hg2))
      rw [hrest]
      exact ⟨(batch ++ recs, c3), rfl⟩

/-- Materialization of a single-type group yields records whose pks are the
documents' ids in order. -/
theorem from_resources_single_type (reg : Registry) (version : Option String)
    (cls : ModelCls) (t : String) (rs : List Resource) (c : Cache)
    (hf : find_model_class reg t = some cls)
    (hall : ∀ r ∈ rs, r.rtype = t)
    (hm : ∀ r ∈ rs, (build_kwargs cls.fields r none).isSome = true) :
    ∃ recs c2, from_resources reg version c rs = some (recs, c2) ∧
      recs.map Record.pk = rs.map (fun r => some r.rid) := by
  unfold from_resources
  by_cases hrs : rs = []
  · subst hrs
    exact ⟨[], c, rfl, rfl⟩
  · rw [group_by_type_const t rs hall hrs, from_resources_groups]
    simp only [hf]
    obtain ⟨batch, hbatch, hpks⟩ := mapM_option_pks
      (fun r => merge_resource_with_existing_cache cls r
        (nlookup (get_many_from_cache cls version c (rs.map (fun r2 => r2.rid))).1 r.rid))
      rs
      (fun r hr => by
        have hs : (merge_resource_with_existing_cache cls r
            (nlookup (get_many_from_cache cls version c
              (rs.map (fun r2 => r2.rid))).1 r.rid)).isSome = true := by
          rw [merge_isSome_congr]
          exact hm r hr
        obtain ⟨rec, hrec⟩ := Option.isSome_iff_exists.mp hs
        exact ⟨rec, hrec, (merge_pk cls r _ rec hrec).1⟩)
    simp only [hbatch]
    rw [from_resources_groups]
    exact ⟨batch, apply_cache_ops c (cache_many cls version batch), by simp, hpks⟩

/-- Materialization of a mixed-type resource list succeeds when every
document is mergeable by whatever class its type resolves to. -/
theorem from_resources_total (reg : Registry) (version : Option String)
    (rs : List Resource) (c : Cache)
    (hm : ∀ r ∈ rs, mergeable_with reg r = true) :
    ∃ out, from_resources reg version c rs = some out := by
  unfold from_resources
  apply from_resources_groups_total
  intro g hg r hr cls2 hfind
  obtain ⟨hmem, htype⟩ := group_by_type_mem rs g hg r hr
  have h2 := hm r hmem
  unfold mergeable_with at h2
  rw [htype] at h2
  simp only [hfind] at h2
  exact h2

/-- Walking `m` consecutive full, successful, single-type pages prepends
their records (identified by pk) and page numbers to whatever the iteration
does from page `start + m` on, with the error outcome unchanged. -/
theorem fetch_iterate_prefix (reg : Registry) (version : Option String)
    (server : Nat → Except ClientError Page) (pageSize : Nat) (pg : Nat → Page)
    (cls : ModelCls) (t : String) (hcls : find_model_class reg t = some cls) :
    ∀ (m start fuel : Nat) (c : Cache),
      (∀ p, start ≤ p → p < start + m → server p = Except.ok (pg p)) →
      (∀ p, start ≤ p → p < start + m → ((pg p).data).length = pageSize) →
      (∀ p, start ≤ p → p < start + m → ∀ r ∈ (pg p).data,
        r.rtype = t ∧ (build_kwargs cls.fields r none).isSome = true) →
      (∀ p, start ≤ p → p < start + m → ∀ r ∈ ((pg p).included.getD []),
        mergeable_with reg r = true) →
      ∃ c2,
        ((fetch_iterate_aux reg version server pageSize [] (m + fuel) start c).1.yielded.map
            Record.pk =
          join_pks pg start m ++
            (fetch_iterate_aux reg version server pageSize [] fuel (start + m)
              c2).1.yielded.map Record.pk) ∧
        ((fetch_iterate_aux reg version server pageSize [] (m + fuel) start c).1.requests =
          List.range' start m ++
            (fetch_iterate_aux reg version server pageSize [] fuel (start + m)
              c2).1.requests) ∧
        ((fetch_iterate_aux reg version server pageSize [] (m + fuel) start c).1.err =
          (fetch_iterate_aux reg version server pageSize [] fuel (start + m) c2).1.err) := by
  intro m
  induction m with
  | zero =>
    intro start fuel c _ _ _ _
    refine ⟨c, ?_, ?_, ?_⟩ <;> simp [join_pks]
  | succ m ih =>
    intro start fuel c hok hfull hdata hincl
    have hok0 : server start = Except.ok (pg start) :=
      hok start (Nat.le_refl _) (by omega)
    have hfull0 : ((pg start).data).length = pageSize :=
      hfull start (Nat.le_refl _) (by omega)
    obtain ⟨⟨irecs, c1⟩, h1⟩ :=
      from_resources_total reg version ((pg start).included.getD []) c
        (hincl start (Nat.le_refl _) (by omega))
    obtain ⟨recs, c2m, h2, hpks⟩ :=
      from_resources_single_type reg version cls t ((pg start).data) c1 hcls
        (fun r hr => (hdata start (Nat.le_refl _) (by omega) r hr).1)
        (fun r hr => (hdata start (Nat.le_refl _) (by omega) r hr).2)
    obtain ⟨c2, e1, e2, e3⟩ := ih (start + 1) fuel c2m
      (fun p hp1 hp2 => hok p (by omega) (by omega))
      (fun p hp1 hp2 => hfull p (by omega) (by omega))
      (fun p hp1 hp2 => hdata p (by omega) (by omega))
      (fun p hp1 hp2 => hincl p (by omega) (by omega))
    have hidx : start + 1 + m = start + (m + 1) := by omega
    rw [hidx] at e1 e2 e3
    refine ⟨c2, ?_, ?_, ?_⟩
    all_goals
      rw [Nat.succ_add, fetch_iterate_aux]
      simp only [hok0, h1, h2, enrich_records_with_included_resources, List.isEmpty_nil,
        if_true, hfull0]
      rw [if_neg (Nat.lt_irrefl pageSize)]
      rcases hX : fetch_iterate_aux reg version server pageSize [] (m + fuel) (start + 1) c2m
        with ⟨rest, c3⟩
      rw [hX] at e1 e2 e3
      simp only [List.map_append, List.range'_succ, join_pks]
    · rw [hpks]
      have e1' : rest.yielded.map Record.pk =
          join_pks pg (start + 1) m ++
            (fetch_iterate_aux reg version server pageSize [] fuel (start + (m + 1))
              c2).1.yielded.map Record.pk := e1
      rw [e1', List.append_assoc]
    · have e2' : rest.requests =
          List.range' (start + 1) m ++
            (fetch_iterate_aux reg version server pageSize [] fuel (start + (m + 1))
              c2).1.requests := e2
      rw [e2', List.cons_append]
    · exact e3

/-- Appending one more page's pks at the end of a page span. -/
theorem join_pks_snoc (pg : Nat → Page) : ∀ (m start : Nat),
    join_pks pg start (m + 1) =
      join_pks pg start m ++ ((pg (start + m)).data).map (fun r => some r.rid) := by
  intro m
  induction m with
  | zero => intro start; simp [join_pks]
  | succ m ih =>
    intro start
    have hidx : start + 1 + m = start + (m + 1) := by omega
    calc join_pks pg start (m + 1 + 1)
        = ((pg start).data).map (fun r => some r.rid) ++ join_pks pg (start + 1) (m + 1) := by
          rw [join_pks]
      _ = ((pg start).data).map (fun r => some r.rid) ++
            (join_pks pg (start + 1) m ++
              ((pg (start + 1 + m)).data).map (fun r => some r.rid)) := by
          rw [ih (start + 1)]
      _ = (((pg start).data).map (fun r => some r.rid) ++ join_pks pg (start + 1) m) ++
            ((pg (start + (m + 1))).data).map (fun r => some r.rid) := by
          rw [List.append_assoc, hidx]
      _ = join_pks pg start (m + 1) ++
            ((pg (start + (m + 1))).data).map (fun r => some r.rid) := by
          rw [join_pks]

/-- C3: over a run of successful single-type pages whose first short page is
page m+1, the iteration yields exactly the records of pages 1..m+1 in order
(identified by pk), requests exactly the pages 1..m+1, and terminates
cleanly without a further request. -/
theorem fetch_iterate_short_page_termination (reg : Registry) (version : Option String)
    (server : Nat → Except ClientError Page) (pageSize : Nat) (pg : Nat → Page)
    (cls : ModelCls) (t : String) (m fuel : Nat) (c : Cache)
    (hcls : find_model_class reg t = some cls)
    (hfuel : m + 1 ≤ fuel)
    (hok : ∀ p ∈ List.range' 1 (m + 1), server p = Except.ok (pg p))
    (hfull : ∀ p ∈ List.range' 1 m, ((pg p).data).length = pageSize)
    (hshort : ((pg (m + 1)).data).length < pageSize)
    (hdata : ∀ p ∈ List.range' 1 (m + 1), ∀ r ∈ (pg p).data,
      r.rtype = t ∧ (build_kwargs cls.fields r none).isSome = true)
    (hincl : ∀ p ∈ List.range' 1 (m + 1), ∀ r ∈ ((pg p).included.getD []),
      mergeable_with reg r = true) :
    ((fetch_iterate_aux reg version server pageSize [] fuel 1 c).1.yielded.map Record.pk =
      join_pks pg 1 (m + 1)) ∧
    ((fetch_iterate_aux reg version server pageSize [] fuel 1 c).1.requests =
      List.range' 1 (m + 1)) ∧
    ((fetch_iterate_aux reg version server pageSize [] fuel 1 c).1.err = none) := by
  obtain ⟨f, rfl⟩ : ∃ f, fuel = m + (f + 1) := ⟨fuel - m - 1, by omega⟩
  obtain ⟨c2, e1, e2, e3⟩ := fetch_iterate_prefix reg version server pageSize pg cls t hcls
    m 1 (f + 1) c
    (fun p hp1 hp2 => hok p (List.mem_range'_1.mpr ⟨hp1, by omega⟩))
    (fun p hp1 hp2 => hfull p (List.mem_range'_1.mpr ⟨hp1, by omega⟩))
    (fun p hp1 hp2 => hdata p (List.mem_range'_1.mpr ⟨hp1, by omega⟩))
    (fun p hp1 hp2 => hincl p (List.mem_range'_1.mpr ⟨hp1, by omega⟩))
  have hmem : (1 + m) ∈ List.range' 1 (m + 1) := List.mem_range'_1.mpr ⟨by omega, by omega⟩
  have hok1 : server (1 + m) = Except.ok (pg (1 + m)) := hok (1 + m) hmem
  obtain ⟨⟨irecs, c3⟩, h1⟩ :=
    from_resources_total reg version ((pg (1 + m)).included.getD []) c2 (hincl (1 + m) hmem)
  obtain ⟨recs, c4, h2, hpks⟩ :=
    from_resources_single_type reg version cls t ((pg (1 + m)).data) c3 hcls
      (fun r hr => (hdata (1 + m) hmem r hr).1)
      (fun r hr => (hdata (1 + m) hmem r hr).2)
  have hshort' : ((pg (1 + m)).data).length < pageSize := by
    have hidx : 1 + m = m + 1 := by omega
    rw [hidx]
    exact hshort
  have hcont : (fetch_iterate_aux reg version server pageSize [] (f + 1) (1 + m) c2).1 =
      { yielded := recs, requests := [1 + m], err := none } := by
    rw [fetch_iterate_aux]
    simp only [hok1, h1, h2, enrich_records_with_included_resources, List.isEmpty_nil,
      if_true]
    rw [if_pos hshort']
  rw [hcont] at e1 e2 e3
  have hidx : 1 + m = m + 1 := by omega
  refine ⟨?_, ?_, ?_⟩
  · rw [e1, hpks, join_pks_snoc pg m 1, hidx]
  · rw [e2]
    have hrng : List.range' 1 (m + 1) = List.range' 1 m ++ [1 + 1 * m] :=
      List.range'_concat 1 m
    simp only [Nat.one_mul] at hrng
    rw [hrng, hidx]
  · rw [e3]

/-- C4: after full successful pages 1..m, a transport error on page m+1 is
handled by status and page number: a 404 on page 1 propagates; a 404 on a
page greater than 1 terminates cleanly, yielding exactly the records of
pages 1..m; any non-404 error propagates. -/
theorem fetch_iterate_404_policy (reg : Registry) (version : Option String)
    (server : Nat → Except ClientError Page) (pageSize : Nat) (pg : Nat → Page)
    (cls : ModelCls) (t : String) (m fuel : Nat) (c : Cache) (e : ClientError)
    (hcls : find_model_class reg t = some cls)
    (hfuel : m + 1 ≤ fuel)
    (hok : ∀ p ∈ List.range' 1 m, server p = Except.ok (pg p))
    (hfull : ∀ p ∈ List.range' 1 m, ((pg p).data).length = pageSize)
    (hdata : ∀ p ∈ List.range' 1 m, ∀ r ∈ (pg p).data,
      r.rtype = t ∧ (build_kwargs cls.fields r none).isSome = true)
    (hincl : ∀ p ∈ List.range' 1 m, ∀ r ∈ ((pg p).included.getD []),
      mergeable_with reg r = true)
    (herr : server (m + 1) = Except.error e) :
    (e.status = 404 → 0 < m →
      (fetch_iterate_aux reg version server pageSize [] fuel 1 c).1.err = none ∧
      (fetch_iterate_aux reg version server pageSize [] fuel 1 c).1.yielded.map Record.pk =
        join_pks pg 1 m ∧
      (fetch_iterate_aux reg version server pageSize [] fuel 1 c).1.requests =
        List.range' 1 (m + 1)) ∧
    (e.status = 404 → m = 0 →
      (fetch_iterate_aux reg version server pageSize [] fuel 1 c).1.err =
        some (IterErr.client e) ∧
      (fetch_iterate_aux reg version server pageSize [] fuel 1 c).1.yielded = [] ∧
      (fetch_iterate_aux reg version server pageSize [] fuel 1 c).1.requests = [1]) ∧
    (e.status ≠ 404 →
      (fetch_iterate_aux reg version server pageSize [] fuel 1 c).1.err =
        some (IterErr.client e) ∧
      (fetch_iterate_aux reg version server pageSize [] fuel 1 c).1.yielded.map Record.pk =
        join_pks pg 1 m ∧
      (fetch_iterate_aux reg version server pageSize [] fuel 1 c).1.requests =
        List.range' 1 (m + 1)) := by
  obtain ⟨f, rfl⟩ : ∃ f, fuel = m + (f + 1) := ⟨fuel - m - 1, by omega⟩
  obtain ⟨c2, e1, e2, e3⟩ := fetch_iterate_prefix reg version server pageSize pg cls t hcls
    m 1 (f + 1) c
    (fun p hp1 hp2 => hok p (List.mem_range'_1.mpr ⟨hp1, by omega⟩))
    (fun p hp1 hp2 => hfull p (List.mem_range'_1.mpr ⟨hp1, by omega⟩))
    (fun p hp1 hp2 => hdata p (List.mem_range'_1.mpr ⟨hp1, by omega⟩))
    (fun p hp1 hp2 => hincl p (List.mem_range'_1.mpr ⟨hp1, by omega⟩))
  have hidx : 1 + m = m + 1 := by omega
  have herr' : server (1 + m) = Except.error e := by rw [hidx]; exact herr
  have hrng : List.range' 1 (m + 1) = List.range' 1 m ++ [1 + 1 * m] :=
    List.range'_concat 1 m
  simp only [Nat.one_mul] at hrng
  refine ⟨fun hst hm => ?_, fun hst hm => ?_, fun hst => ?_⟩
  · have hcont : (fetch_iterate_aux reg version server pageSize [] (f + 1) (1 + m) c2).1 =
        { yielded := [], requests := [1 + m], err := none } := by
      rw [fetch_iterate_aux]
      simp only [herr']
      have hb : ((1 + m > 1 : Bool) && (e.status == 404)) = true := by
        simp only [Bool.and_eq_true, decide_eq_true_eq, beq_iff_eq]
        exact ⟨by omega, hst⟩
      rw [if_pos hb]
    rw [hcont] at e1 e2 e3
    refine ⟨by rw [e3], by rw [e1]; simp, by rw [e2]; simp [hrng, hidx]⟩
  · subst hm
    have hcont : (fetch_iterate_aux reg version server pageSize [] (f + 1) (1 + 0) c2).1 =
        { yielded := [], requests := [1 + 0], err := some (IterErr.client e) } := by
      rw [fetch_iterate_aux]
      simp only [herr']
      rw [if_neg (by simp)]
    rw [hcont] at e1 e2 e3
    refine ⟨by rw [e3], ?_, by rw [e2]; simp [join_pks]⟩
    have h0 : (fetch_iterate_aux reg version server pageSize [] (0 + (f + 1)) 1
        c).1.yielded.map Record.pk = [] := by
      rw [e1]; simp [join_pks]
    exact List.map_eq_nil_iff.mp h0
  · have hcont : (fetch_iterate_aux reg version server pageSize [] (f + 1) (1 + m) c2).1 =
        { yielded := [], requests := [1 + m], err := some (IterErr.client e) } := by
      rw [fetch_iterate_aux]
      simp only [herr']
      rw [if_neg (by simp [hst])]
    rw [hcont] at e1 e2 e3
    refine ⟨by rw [e3], by rw [e1]; simp, by rw [e2]; simp [hrng, hidx]⟩

/-- Witness for C3 at the concrete server with pages of sizes
[10, 10, 10, 10, 8] and page size 10: 48 records with ids 1..48 in order,
exactly 5 page requests, clean termination. -/
theorem fetch_iterate_short_page_termination_witness :
    ((fetch_iterate_aux demo_reg none demo_server 10 [] 5 1 []).1.yielded.map Record.pk =
      (List.range 48).map (fun i => some (i + 1))) ∧
    ((fetch_iterate_aux demo_reg none demo_server 10 [] 5 1 []).1.requests =
      [1, 2, 3, 4, 5]) ∧
    ((fetch_iterate_aux demo_reg none demo_server 10 [] 5 1 []).1.err = none) := by
  have h := fetch_iterate_short_page_termination demo_reg none demo_server 10 demo_page
    demo_cls "tests" 4 5 [] (by decide) (by decide) (by decide) (by decide) (by decide)
    (by decide) (by decide)
  refine ⟨?_, ?_, h.2.2⟩
  · rw [h.1]
    decide
  · rw [h.2.1]
    decide

/-- Witness for C4 at the concrete server failing with a 404 on page 3
after two full pages: iteration terminates cleanly with the 20 records of
pages 1 and 2 after requesting pages 1..3. -/
theorem fetch_iterate_404_policy_witness :
    ((fetch_iterate_aux demo_reg none demo_server_404 10 [] 5 1 []).1.err = none) ∧
    ((fetch_iterate_aux demo_reg none demo_server_404 10 [] 5 1 []).1.yielded.map Record.pk =
      (List.range 20).map (fun i => some (i + 1))) ∧
    ((fetch_iterate_aux demo_reg none demo_server_404 10 [] 5 1 []).1.requests =
      [1, 2, 3]) := by
  have h := (fetch_iterate_404_policy demo_reg none demo_server_404 10 demo_page
    demo_cls "tests" 2 5 [] { status := 404 } (by decide) (by decide) (by decide)
    (by decide) (by decide) (by decide) (by decide)).1 rfl (by decide)
  refine ⟨h.1, ?_, ?_⟩
  · rw [h.2.1]
    decide
  · rw [h.2.2]
    decide

end DJA
